/-
Verification of the mediawiki-parser-utils template specification library.

The Rust sources are embedded shallowly:
  * `Element` mirrors the document-tree type of the `mediawiki_parser` crate
    (an external collaborator of this library); source positions are dropped
    because no function verified here inspects them.
  * pure Rust functions become Lean functions of the same name;
  * the process-terminating configuration checks of the derive macro are
    modelled as an `Option`-returning compiler (`none` = panic);
  * the per-template generated code of the derive macro
    (`implement_template_parsing`, `implement_spec_list`, ...) is modelled
    generically, parameterised by the list of template definitions that the
    macro would have been instantiated with.
-/
import Mathlib

namespace MwUtils

/-- `Format` from the generated `spec_meta` module:
whether a template represents a logical unit (`Block`), a box, or
simpler markup (`Inline`). -/
inductive Format where
  | Block
  | Box
  | Inline
deriving Repr, DecidableEq

/-- `Priority` from the generated `spec_meta` module. -/
inductive Priority where
  | Required
  | Optional
deriving Repr, DecidableEq

/-- Markup kinds of `Formatted` elements (from `mediawiki_parser`);
only `Math` is distinguished by the code verified here. -/
inductive MarkupType where
  | Math
  | Bold
  | Italic
  | NoWiki
deriving Repr, DecidableEq

/-- Kind of a list item (from `mediawiki_parser`). -/
inductive ListItemKind where
  | Ordered
  | Unordered
deriving Repr, DecidableEq

/-- The document tree of `mediawiki_parser`, with the fields the verified
code touches; `Span` positions are dropped. -/
inductive Element where
  | Text (text : String)
  | Paragraph (content : List Element)
  | Formatted (markup : MarkupType) (content : List Element)
  | Template (name : List Element) (content : List Element)
  | TemplateArgument (name : String) (value : List Element)
  | Heading (caption : List Element) (content : List Element)
  | Table (caption : List Element) (rows : List Element)
  | TableRow (cells : List Element)
  | TableCell (content : List Element)
  | Gallery (content : List Element)
  | InternalReference (target : List Element) (caption : List Element)
  | List (content : List Element)
  | ListItem (kind : ListItemKind) (depth : Nat) (content : List Element)
  | Error (message : String)

/-- Model of Rust `str::trim` (whitespace restricted to the ASCII characters
recognised by `Char.isWhitespace`): drop leading and trailing whitespace. -/
def rtrim (s : String) : String :=
  ⟨((s.data.dropWhile Char.isWhitespace).reverse.dropWhile Char.isWhitespace).reverse⟩

/-- Model of Rust `char::to_lowercase` on the ASCII fragment. -/
def lowerChar (c : Char) : Char :=
  if c.isUpper then Char.ofNat (c.toNat + 32) else c

/-- Model of Rust `str::to_lowercase` (ASCII fragment). -/
def rlower (s : String) : String := ⟨s.data.map lowerChar⟩

/-- Model of Rust `str::starts_with`. -/
def rstarts (s pre : String) : Bool := pre.data.isPrefixOf s.data

mutual
/-- `util::extract_plain_text`: concatenate the text of `Text`, `Formatted`,
`Paragraph` and `TemplateArgument` nodes, recursively; other nodes
contribute nothing.  The Rust `for` loop over the node list with a `match`
on each node is split into a list function and a per-node function. -/
def extract_plain_text : List Element → String
  | [] => ""
  | root :: rest => extract_plain_text_elem root ++ extract_plain_text rest
termination_by structural x => x

/-- The `match` body of `extract_plain_text` for one node. -/
def extract_plain_text_elem : Element → String
  | .Text text => text
  | .Formatted _ content => extract_plain_text content
  | .Paragraph content => extract_plain_text content
  | .TemplateArgument _ value => extract_plain_text value
  | _ => ""
termination_by structural x => x
end

/-- Modelled from the spec: the variant of `util::find_arg` taking a list of
argument names, used by the generated `parse_template` and by
`transformations.rs` (only a single-name legacy variant is present in
`src/util.rs`). Per §4.2 step 3 of the spec it returns the first template
argument whose name matches any of the given aliases, case-insensitively
(the aliases handed to it are already trimmed and lowercased). -/
def find_arg (content : List Element) (arg_names : List String) : Option Element :=
  content.find? fun child =>
    match child with
    | .TemplateArgument name _ => rlower (rtrim name) ∈ arg_names
    | _ => false

/-- The closure `extract_content` of the generated `parse_template`:
look up an argument by its aliases and return its value slice. -/
def extract_content (content : List Element) (attr_names : List String) : Option (List Element) :=
  match find_arg content attr_names with
  | some (.TemplateArgument _ value) => some value
  | _ => none

/-- `PredError` from the generated `spec_meta` module: failure of a
predicate check, carrying the offending node (if any) and a cause. -/
structure PredError where
  tree : Option Element
  cause : String

/-- `PredResult = Result<(), PredError>`. -/
abbrev PredResult := Except PredError Unit

/-- The child node-lists of an element, as exposed by the
`mediawiki_parser` `Traversion` trait (an external collaborator):
every `Vec<Element>` field, in field order. -/
def childLists : Element → List (List Element)
  | .Text _ => []
  | .Paragraph content => [content]
  | .Formatted _ content => [content]
  | .Template name content => [name, content]
  | .TemplateArgument _ value => [value]
  | .Heading caption content => [caption, content]
  | .Table caption rows => [caption, rows]
  | .TableRow cells => [cells]
  | .TableCell content => [content]
  | .Gallery content => [content]
  | .InternalReference target caption => [target, caption]
  | .List content => [content]
  | .ListItem _ _ content => [content]
  | .Error _ => []

/-- Sequencing of predicate results: keep the first error. -/
def pseq (a b : PredResult) : PredResult :=
  match a with
  | .error e => .error e
  | .ok () => b

mutual
/-- `spec_meta::always` together with `TreeChecker` and the `Traversion`
driver of `mediawiki_parser`: apply the predicate to the given node-list
and then, depth-first in document order, to every node-list nested inside
it; the recorded result is the error of the first failing invocation
(`work_vec` never overwrites an error result), success otherwise. -/
def always (root : List Element) (predicate : List Element → PredResult) : PredResult :=
  pseq (predicate root) (alwaysElems predicate root)

/-- Visit the elements of a node-list after the list itself was checked. -/
def alwaysElems (predicate : List Element → PredResult) : List Element → PredResult
  | [] => .ok ()
  | e :: rest => pseq (alwaysElem predicate e) (alwaysElems predicate rest)

/-- Visit the child node-lists of one element (cf. `childLists`). -/
def alwaysElem (predicate : List Element → PredResult) : Element → PredResult
  | .Text _ => .ok ()
  | .Paragraph content => always content predicate
  | .Formatted _ content => always content predicate
  | .Template name content => pseq (always name predicate) (always content predicate)
  | .TemplateArgument _ value => always value predicate
  | .Heading caption content => pseq (always caption predicate) (always content predicate)
  | .Table caption rows => pseq (always caption predicate) (always rows predicate)
  | .TableRow cells => always cells predicate
  | .TableCell content => always content predicate
  | .Gallery content => always content predicate
  | .InternalReference target caption =>
    pseq (always target predicate) (always caption predicate)
  | .List content => always content predicate
  | .ListItem _ _ content => always content predicate
  | .Error _ => .ok ()
end

mutual
/-- All node-lists of a tree rooted at a node-list, in the depth-first
document order in which `always` visits them: the list itself first,
then the node-lists inside each element from left to right. -/
def nodeLists (root : List Element) : List (List Element) :=
  root :: nodeListsElems root

/-- Node-lists nested inside the elements of a node-list. -/
def nodeListsElems : List Element → List (List Element)
  | [] => []
  | e :: rest => nodeListsElem e ++ nodeListsElems rest

/-- Node-lists nested inside one element (cf. `childLists`). -/
def nodeListsElem : Element → List (List Element)
  | .Text _ => []
  | .Paragraph content => nodeLists content
  | .Formatted _ content => nodeLists content
  | .Template name content => nodeLists name ++ nodeLists content
  | .TemplateArgument _ value => nodeLists value
  | .Heading caption content => nodeLists caption ++ nodeLists content
  | .Table caption rows => nodeLists caption ++ nodeLists rows
  | .TableRow cells => nodeLists cells
  | .TableCell content => nodeLists content
  | .Gallery content => nodeLists content
  | .InternalReference target caption => nodeLists target ++ nodeLists caption
  | .List content => nodeLists content
  | .ListItem _ _ content => nodeLists content
  | .Error _ => []
end

/-- The result of applying a predicate to a sequence of node-lists with
first-failure short-circuit. -/
def firstError (predicate : List Element → PredResult) : List (List Element) → PredResult
  | [] => .ok ()
  | l :: rest =>
    match predicate l with
    | .error e => .error e
    | .ok () => firstError predicate rest

theorem pseq_assoc (a b c : PredResult) : pseq (pseq a b) c = pseq a (pseq b c) := by
  cases a with
  | error e => rfl
  | ok v => cases v; rfl

theorem firstError_append (p : List Element → PredResult) (a b : List (List Element)) :
    firstError p (a ++ b) = pseq (firstError p a) (firstError p b) := by
  induction a with
  | nil => rfl
  | cons l rest ih =>
    simp only [List.cons_append, firstError]
    cases p l with
    | error e => rfl
    | ok v => cases v; simpa [pseq] using ih

mutual
theorem always_eq_fe (p : List Element → PredResult) (root : List Element) :
    always root p = firstError p (nodeLists root) := by
  have h := alwaysElems_eq_fe p root
  simp only [always, nodeLists, firstError]
  cases p root with
  | error e => rfl
  | ok v => cases v; simpa [pseq] using h

theorem alwaysElems_eq_fe (p : List Element → PredResult) (l : List Element) :
    alwaysElems p l = firstError p (nodeListsElems l) := by
  match l with
  | [] => simp [alwaysElems, nodeListsElems, firstError]
  | e :: rest =>
    have he := alwaysElem_eq_fe p e
    have hr := alwaysElems_eq_fe p rest
    simp only [alwaysElems, nodeListsElems, firstError_append, he, hr]

theorem alwaysElem_eq_fe (p : List Element → PredResult) (e : Element) :
    alwaysElem p e = firstError p (nodeListsElem e) := by
  match e with
  | .Text _ => simp [alwaysElem, nodeListsElem, firstError]
  | .Paragraph c => simpa [alwaysElem, nodeListsElem] using always_eq_fe p c
  | .Formatted _ c => simpa [alwaysElem, nodeListsElem] using always_eq_fe p c
  | .Template n c =>
    simp [alwaysElem, nodeListsElem, firstError_append, always_eq_fe p n, always_eq_fe p c]
  | .TemplateArgument _ v => simpa [alwaysElem, nodeListsElem] using always_eq_fe p v
  | .Heading cap c =>
    simp [alwaysElem, nodeListsElem, firstError_append, always_eq_fe p cap, always_eq_fe p c]
  | .Table cap rows =>
    simp [alwaysElem, nodeListsElem, firstError_append, always_eq_fe p cap, always_eq_fe p rows]
  | .TableRow cells => simpa [alwaysElem, nodeListsElem] using always_eq_fe p cells
  | .TableCell c => simpa [alwaysElem, nodeListsElem] using always_eq_fe p c
  | .Gallery c => simpa [alwaysElem, nodeListsElem] using always_eq_fe p c
  | .InternalReference t cap =>
    simp [alwaysElem, nodeListsElem, firstError_append, always_eq_fe p t, always_eq_fe p cap]
  | .List c => simpa [alwaysElem, nodeListsElem] using always_eq_fe p c
  | .ListItem _ _ c => simpa [alwaysElem, nodeListsElem] using always_eq_fe p c
  | .Error _ => simp [alwaysElem, nodeListsElem, firstError]
end

theorem firstError_ok_of_all (p : List Element → PredResult) (ls : List (List Element))
    (h : ∀ l ∈ ls, p l = .ok ()) : firstError p ls = .ok () := by
  induction ls with
  | nil => rfl
  | cons l rest ih =>
    simp only [firstError, h l (List.mem_cons_self l rest)]
    exact ih fun x hx => h x (List.mem_cons_of_mem l hx)

/-- `spec::everything_is_allowed`: admits anything. -/
def everything_is_allowed (_elems : List Element) : PredResult := .ok ()

/-- **C1**: the recursive checker `always` (spec: `check_always`) applies the
predicate to the node list itself and to every nested node-list in
depth-first document order, and returns the error produced by the first
failing invocation in that order; if the predicate succeeds on every
node-list, the overall result is success. -/
theorem check_always_first_failure (root : List Element)
    (predicate : List Element → PredResult) :
    always root predicate = firstError predicate (nodeLists root) ∧
      ((∀ l ∈ nodeLists root, predicate l = .ok ()) →
        always root predicate = .ok ()) := by
  refine ⟨always_eq_fe predicate root, fun h => ?_⟩
  rw [always_eq_fe]
  exact firstError_ok_of_all predicate (nodeLists root) h

/-- Witness for C1 at the empty node list with the predicate that admits
anything. -/
theorem check_always_first_failure_witness :
    always [] everything_is_allowed = .ok () :=
  (check_always_first_failure [] everything_is_allowed).2 (fun _ _ => rfl)

/-! ## The specification registry (`derive/src/lib.rs`) -/

/-- `spec::AttributeDefinition` (deserialized input of the derive macro). -/
structure AttributeDefinition where
  identifier : String
  names : List String
  priority : Priority
  predicate : String
  description : String

/-- `spec::SpecTemplate` (deserialized input of the derive macro). -/
structure TemplateDefinition where
  identifier : String
  names : List String
  description : String
  format : Format
  attributes : List AttributeDefinition

/-- `str_to_lower_lit`: trim and lowercase every alias. -/
def str_to_lower_lit (input : List String) : List String :=
  input.map fun a => rlower (rtrim a)

/-- The validation part of `check_template`, as a Boolean: `false` exactly
when the macro would panic on this definition.  The Rust code panics when
the identifier's first character is missing or not uppercase
(`chars().next().map(is_uppercase).unwrap_or(false)`), when the template's
name list is empty, when some attribute identifier contains an uppercase
character, or when some attribute's name list is empty
(`char::is_uppercase` is modelled on the ASCII fragment by `Char.isUpper`). -/
def check_template (template : TemplateDefinition) : Bool :=
  ((template.identifier.data.head?.map Char.isUpper).getD false)
    && !template.names.isEmpty
    && template.attributes.all fun child =>
      !(child.identifier.data.any Char.isUpper) && !child.names.isEmpty

/-- Compiled `AttributeSpec` of the generated `spec_meta` module (the
callable predicate is kept only by its display name). -/
structure AttributeSpec where
  names : List String
  description : String
  priority : Priority
  predicate_name : String
deriving Repr, DecidableEq

/-- Compiled `TemplateSpec` of the generated `spec_meta` module. -/
structure TemplateSpec where
  names : List String
  description : String
  format : Format
  attributes : List AttributeSpec
deriving Repr, DecidableEq

/-- One entry of `implement_attribute_spec`. -/
def compileAttribute (attr : AttributeDefinition) : AttributeSpec :=
  { names := str_to_lower_lit attr.names
    description := attr.description
    priority := attr.priority
    predicate_name := attr.predicate }

/-- One entry of the generated `spec()` list (`implement_spec_list`). -/
def compileTemplate (template : TemplateDefinition) : TemplateSpec :=
  { names := str_to_lower_lit template.names
    description := template.description
    format := template.format
    attributes := template.attributes.map compileAttribute }

/-- The derive macro's compilation of a definition list: every definition is
validated by `check_template` (a panic is modelled as `none`), and the
surviving list is compiled into the generated `spec()` catalog. -/
def compile (defs : List TemplateDefinition) : Option (List TemplateSpec) :=
  if defs.all check_template then some (defs.map compileTemplate) else none

/-- Generated `spec_of` (spec: `spec_by_name`): trim and lowercase the query,
then return the first compiled template one of whose aliases equals it. -/
def spec_of (specs : List TemplateSpec) (name : String) : Option TemplateSpec :=
  let name := rlower (rtrim name)
  specs.find? fun spec => name ∈ spec.names

/-- `TemplateSpec::default_name`: the first name in the list
(`unwrap` of `first()` is modelled as an `Option`, `none` = panic). -/
def TemplateSpec.default_name (spec : TemplateSpec) : Option String :=
  spec.names.head?

/-- `AttributeSpec::default_name`. -/
def AttributeSpec.default_name (spec : AttributeSpec) : Option String :=
  spec.names.head?

/-- **C4**: `spec_of` (spec: `spec_by_name`) trims and lowercases the query
and returns the first compiled template, in definition order, one of whose
aliases equals the normalized query (`none` when no alias matches); hence
queries agreeing after normalization yield the same result. -/
theorem spec_of_first_match_normalized (specs : List TemplateSpec) (q₁ q₂ : String)
    (h : rlower (rtrim q₁) = rlower (rtrim q₂)) :
    spec_of specs q₁ = specs.find? (fun s => rlower (rtrim q₁) ∈ s.names) ∧
      spec_of specs q₁ = spec_of specs q₂ := by
  refine ⟨rfl, ?_⟩
  simp only [spec_of, h]

/-- Witness for C4: `" MATH "` and `"math"` agree after normalization and
produce the same (successful) lookup. -/
theorem spec_of_first_match_normalized_witness :
    rlower (rtrim " MATH ") = rlower (rtrim "math") ∧
      spec_of [⟨["math"], "", .Inline, []⟩] " MATH " =
        spec_of [⟨["math"], "", .Inline, []⟩] "math" :=
  ⟨by decide,
    (spec_of_first_match_normalized [⟨["math"], "", .Inline, []⟩] " MATH " "math"
      (by decide)).2⟩

theorem check_template_eq_false_iff (t : TemplateDefinition) :
    check_template t = false ↔
      (t.identifier.data.head?.map Char.isUpper).getD false = false ∨ t.names = [] ∨
        ∃ a ∈ t.attributes, (∃ c ∈ a.identifier.data, c.isUpper) ∨ a.names = [] := by
  rw [← Bool.not_eq_true]
  simp only [check_template, Bool.and_eq_true, List.all_eq_true, Bool.not_eq_true',
    List.isEmpty_iff, not_and_or, not_forall]
  push_neg
  simp only [ne_eq, Bool.not_eq_false, List.isEmpty_iff, List.any_eq_true, or_assoc,
    exists_prop, Bool.not_eq_true]

/-- Concrete definition list for C5: the attribute identifier `"ref_id"` is
not fully lowercase (`'_'` is not a lowercase letter), yet compilation
succeeds, because the code only rejects attribute identifiers containing an
uppercase character. -/
def c5Defs : List TemplateDefinition :=
  [{ identifier := "Anchor", names := ["anchor"], description := "", format := .Inline,
     attributes := [{ identifier := "ref_id", names := ["1"], priority := .Required,
                      predicate := "is_plain_text", description := "" }] }]

/-- Counterexample to C5 as stated: the attribute identifier `"ref_id"` is
not fully lowercase, yet `compile` succeeds rather than failing fast. -/
theorem compile_accepts_non_lowercase_attribute :
    ("ref_id".data.all Char.isLower) = false ∧ (compile c5Defs).isSome = true := by
  decide

/-- **C5** (amended): registry compilation fails fast (modelled as `none`)
iff some definition has a template identifier whose first character is
missing or not uppercase, an attribute identifier that contains an
uppercase character, or an empty alias list on the template or on an
attribute; a definition list violating none of these compiles. -/
theorem compile_fail_fast_iff (defs : List TemplateDefinition) :
    compile defs = none ↔ ∃ t ∈ defs,
      (t.identifier.data.head?.map Char.isUpper).getD false = false ∨ t.names = [] ∨
        ∃ a ∈ t.attributes, (∃ c ∈ a.identifier.data, c.isUpper) ∨ a.names = [] := by
  by_cases h : defs.all check_template
  · simp only [compile, h, if_true]
    simp only [List.all_eq_true] at h
    constructor
    · intro hc; cases hc
    · rintro ⟨t, ht, hbad⟩
      have := h t ht
      rw [← check_template_eq_false_iff] at hbad
      simp [this] at hbad
  · simp only [compile, h, if_false]
    simp only [List.all_eq_true, not_forall] at h
    obtain ⟨t, ht, hbad⟩ := h
    refine iff_of_true rfl ⟨t, ht, ?_⟩
    rw [← check_template_eq_false_iff]
    simpa using hbad

/-! ## The template matcher (generated `parse_template`) -/

/-- `spec_meta::Attribute`: a concrete value of a template attribute. -/
structure Attribute where
  name : String
  priority : Priority
  value : List Element

/-- The value of one generated per-attribute field of a `KnownTemplate`
struct: a required attribute holds content directly, an optional one an
`Option`. -/
inductive FieldValue where
  | required (value : List Element)
  | optional (value : Option (List Element))

/-- Generic model of one `KnownTemplate` variant (the generated per-template
structs share these fields; the per-attribute typed fields become an
association list from attribute identifier to `FieldValue`). -/
structure ParsedTemplate where
  identifier : String
  names : List String
  description : String
  format : Format
  present : List Attribute
  fields : List (String × FieldValue)

/-- The per-attribute field initializers of `implement_parsing_match`:
a required attribute whose aliases match no argument aborts the whole
parse (`return None`). -/
def parseFields (content : List Element) :
    List AttributeDefinition → Option (List (String × FieldValue))
  | [] => some []
  | attr :: rest =>
    match attr.priority with
    | .Required =>
      match extract_content content (str_to_lower_lit attr.names) with
      | none => none
      | some v =>
        (parseFields content rest).map fun fs => (attr.identifier, .required v) :: fs
    | .Optional =>
      (parseFields content rest).map fun fs =>
        (attr.identifier, .optional (extract_content content (str_to_lower_lit attr.names))) :: fs

/-- The `present` initializer of `implement_parsing_match`: one entry per
declared attribute whose arguments were found, in declaration order. -/
def parsePresent (content : List Element) (attrs : List AttributeDefinition) :
    List Attribute :=
  attrs.filterMap fun attr =>
    (extract_content content (str_to_lower_lit attr.names)).map fun value =>
      { name := attr.identifier, priority := attr.priority, value }

/-- One `implement_parsing_match` block, reached when the normalized
invocation name is among this template's aliases. -/
def parseMatch (t : TemplateDefinition) (content : List Element) : Option ParsedTemplate :=
  (parseFields content t.attributes).map fun fields =>
    { identifier := t.identifier
      names := str_to_lower_lit t.names
      description := t.description
      format := t.format
      present := parsePresent content t.attributes
      fields }

/-- The chain of `implement_parsing_match` blocks in definition order; the
first alias-matching template is committed to (a missing required
attribute there makes the whole function return `none`). -/
def parseLoop (name : String) (content : List Element) :
    List TemplateDefinition → Option ParsedTemplate
  | [] => none
  | t :: rest =>
    if name ∈ str_to_lower_lit t.names then parseMatch t content
    else parseLoop name content rest

/-- Generated `parse_template`: normalize (trim, lowercase) the extracted
invocation name and try each template definition in order. -/
def parse_template (defs : List TemplateDefinition) (tname content : List Element) :
    Option ParsedTemplate :=
  parseLoop (rlower (rtrim (extract_plain_text tname))) content defs

theorem extract_content_eq_none_iff (content : List Element) (names : List String) :
    extract_content content names = none ↔
      ∀ e ∈ content, ∀ an av, e = .TemplateArgument an av → rlower (rtrim an) ∉ names := by
  unfold extract_content find_arg
  cases hf : content.find? fun child =>
      match child with
      | .TemplateArgument name _ => rlower (rtrim name) ∈ names
      | _ => false with
  | none =>
    rw [List.find?_eq_none] at hf
    refine iff_of_true rfl ?_
    rintro e he an av rfl hmem
    have := hf _ he
    simp [hmem] at this
  | some e =>
    have hpe := List.find?_some hf
    have hme := List.mem_of_find?_eq_some hf
    match e, hpe with
    | .TemplateArgument an av, hpe =>
      refine iff_of_false (by simp) ?_
      intro h
      exact h _ hme an av rfl (by simpa using hpe)

theorem extract_content_eq_some_find_arg (content : List Element) (names : List String)
    (v : List Element) (h : extract_content content names = some v) :
    ∃ an, find_arg content names = some (.TemplateArgument an v) := by
  unfold extract_content at h
  cases hf : find_arg content names with
  | none => rw [hf] at h; cases h
  | some e =>
    rw [hf] at h
    match e, h with
    | .TemplateArgument an av, h =>
      cases h
      exact ⟨an, rfl⟩

theorem parseFields_eq_none_iff (content : List Element)
    (attrs : List AttributeDefinition) :
    parseFields content attrs = none ↔
      ∃ a ∈ attrs, a.priority = .Required ∧
        extract_content content (str_to_lower_lit a.names) = none := by
  induction attrs with
  | nil => simp [parseFields]
  | cons attr rest ih =>
    cases hp : attr.priority with
    | Required =>
      cases hx : extract_content content (str_to_lower_lit attr.names) with
      | none =>
        refine iff_of_true (by simp [parseFields, hp, hx]) ⟨attr, by simp, hp, hx⟩
      | some v =>
        simp only [parseFields, hp, hx, Option.map_eq_none', ih]
        constructor
        · rintro ⟨a, ha, h⟩
          exact ⟨a, List.mem_cons_of_mem _ ha, h⟩
        · rintro ⟨a, ha, hreq, hnone⟩
          rcases List.mem_cons.mp ha with rfl | ha
          · rw [hx] at hnone; cases hnone
          · exact ⟨a, ha, hreq, hnone⟩
    | Optional =>
      simp only [parseFields, hp, Option.map_eq_none', ih]
      constructor
      · rintro ⟨a, ha, h⟩
        exact ⟨a, List.mem_cons_of_mem _ ha, h⟩
      · rintro ⟨a, ha, hreq, hnone⟩
        rcases List.mem_cons.mp ha with rfl | ha
        · rw [hp] at hreq; cases hreq
        · exact ⟨a, ha, hreq, hnone⟩

theorem parseFields_required_mem (content : List Element)
    (attrs : List AttributeDefinition) (fs : List (String × FieldValue))
    (h : parseFields content attrs = some fs) :
    ∀ a ∈ attrs, a.priority = .Required →
      ∃ v, extract_content content (str_to_lower_lit a.names) = some v ∧
        (a.identifier, FieldValue.required v) ∈ fs := by
  induction attrs generalizing fs with
  | nil => intro a ha; cases ha
  | cons attr rest ih =>
    intro a ha hreq
    rcases List.mem_cons.mp ha with rfl | ha
    · rw [parseFields, hreq] at h
      cases hx : extract_content content (str_to_lower_lit a.names) with
      | none => rw [hx] at h; cases h
      | some v =>
        rw [hx] at h
        cases hr : parseFields content rest with
        | none => rw [hr] at h; cases h
        | some fs' =>
          rw [hr] at h
          cases h
          exact ⟨v, rfl, List.mem_cons_self _ _⟩
    · rw [parseFields] at h
      cases hp : attr.priority with
      | Required =>
        rw [hp] at h
        cases hx : extract_content content (str_to_lower_lit attr.names) with
        | none => rw [hx] at h; cases h
        | some v =>
          rw [hx] at h
          cases hr : parseFields content rest with
          | none => rw [hr] at h; cases h
          | some fs' =>
            rw [hr] at h
            cases h
            obtain ⟨w, hw, hmem⟩ := ih fs' hr a ha hreq
            exact ⟨w, hw, List.mem_cons_of_mem _ hmem⟩
      | Optional =>
        rw [hp] at h
        cases hr : parseFields content rest with
        | none => rw [hr] at h; cases h
        | some fs' =>
          rw [hr] at h
          cases h
          obtain ⟨w, hw, hmem⟩ := ih fs' hr a ha hreq
          exact ⟨w, hw, List.mem_cons_of_mem _ hmem⟩

theorem parseLoop_eq_find (name : String) (content : List Element)
    (defs : List TemplateDefinition) :
    parseLoop name content defs =
      (defs.find? fun t => name ∈ str_to_lower_lit t.names).bind
        fun t => parseMatch t content := by
  induction defs with
  | nil => rfl
  | cons t rest ih =>
    by_cases h : name ∈ str_to_lower_lit t.names
    · rw [parseLoop, if_pos h, List.find?_cons_of_pos _ (by simpa using h)]
      rfl
    · rw [parseLoop, if_neg h, List.find?_cons_of_neg _ (by simpa using h), ih]

/-- **C2**: `parse_template` returns `none` in exactly two situations: the
normalized (trimmed, lowercased) invocation name is contained in no
definition's alias set, or the first definition (in definition order) whose
alias set contains the name declares a `Required` attribute for which no
argument of the invocation matches any of that attribute's aliases; both
situations yield the same `none`. -/
theorem parse_template_none_iff (defs : List TemplateDefinition)
    (tname content : List Element) :
    parse_template defs tname content = none ↔
      (∀ t ∈ defs, rlower (rtrim (extract_plain_text tname)) ∉ str_to_lower_lit t.names) ∨
      ∃ t, (defs.find? fun t' =>
            rlower (rtrim (extract_plain_text tname)) ∈ str_to_lower_lit t'.names) = some t ∧
        ∃ a ∈ t.attributes, a.priority = .Required ∧
          ∀ e ∈ content, ∀ an av, e = .TemplateArgument an av →
            rlower (rtrim an) ∉ str_to_lower_lit a.names := by
  rw [parse_template, parseLoop_eq_find]
  cases hf : defs.find? fun t' =>
      rlower (rtrim (extract_plain_text tname)) ∈ str_to_lower_lit t'.names with
  | none =>
    rw [List.find?_eq_none] at hf
    refine iff_of_true rfl (Or.inl ?_)
    intro t ht hmem
    have := hf t ht
    simp [hmem] at this
  | some t =>
    rw [Option.some_bind]
    constructor
    · intro h
      rw [parseMatch, Option.map_eq_none', parseFields_eq_none_iff] at h
      obtain ⟨a, ha, hreq, hnone⟩ := h
      rw [extract_content_eq_none_iff] at hnone
      exact Or.inr ⟨t, rfl, a, ha, hreq, hnone⟩
    · rintro (hall | ⟨t', ht', a, ha, hreq, hnomatch⟩)
      · exact absurd (by simpa using List.find?_some hf)
          (hall t (List.mem_of_find?_eq_some hf))
      · cases ht'
        rw [parseMatch, Option.map_eq_none', parseFields_eq_none_iff]
        exact ⟨a, ha, hreq, (extract_content_eq_none_iff _ _).mpr hnomatch⟩

/-- **C3**: when `parse_template` matches an invocation against the first
alias-matching definition `t`, the returned value's `present` list contains
exactly one `Attribute` for each declared attribute of `t` for which a
matching argument was found, in declaration order and independent of
priority, and every `Required` typed field holds the content of the
argument of the invocation that was matched for it. -/
theorem parse_template_present_fields (defs : List TemplateDefinition)
    (tname content : List Element) (t : TemplateDefinition) (p : ParsedTemplate)
    (hf : (defs.find? fun t' =>
        rlower (rtrim (extract_plain_text tname)) ∈ str_to_lower_lit t'.names) = some t)
    (hp : parse_template defs tname content = some p) :
    p.present = t.attributes.filterMap (fun a =>
        (extract_content content (str_to_lower_lit a.names)).map fun value =>
          (⟨a.identifier, a.priority, value⟩ : Attribute)) ∧
      ∀ a ∈ t.attributes, a.priority = .Required →
        ∃ an av, find_arg content (str_to_lower_lit a.names) =
            some (.TemplateArgument an av) ∧
          (a.identifier, FieldValue.required av) ∈ p.fields := by
  rw [parse_template, parseLoop_eq_find, hf, Option.some_bind, parseMatch] at hp
  cases hfs : parseFields content t.attributes with
  | none => rw [hfs] at hp; cases hp
  | some fs =>
    rw [hfs] at hp
    cases hp
    refine ⟨rfl, ?_⟩
    intro a ha hreq
    obtain ⟨v, hv, hmem⟩ := parseFields_required_mem content t.attributes fs hfs a ha hreq
    obtain ⟨an, hfa⟩ := extract_content_eq_some_find_arg content _ v hv
    exact ⟨an, v, hfa, hmem⟩

/-- The single template definition of the C3 witness: a required attribute
`formulae` with alias `1`. -/
def c3Def : TemplateDefinition :=
  { identifier := "Formula", names := ["formula"], description := "", format := .Block,
    attributes := [{ identifier := "formulae", names := ["1"], priority := .Required,
                     predicate := "is_math_tag", description := "" }] }

/-- The parsed value expected for the C3 witness invocation. -/
def c3Parsed : ParsedTemplate :=
  { identifier := "Formula", names := ["formula"], description := "", format := .Block,
    present := [⟨"formulae", .Required, [.Text "x"]⟩],
    fields := [("formulae", .required [.Text "x"])] }

/-- Witness for C3: a concrete invocation supplying the required argument
parses, and its `present` list holds the supplied content. -/
theorem parse_template_present_fields_witness :
    parse_template [c3Def] [.Text "Formula"] [.TemplateArgument "1" [.Text "x"]] =
        some c3Parsed ∧
      c3Parsed.present = [⟨"formulae", .Required, [.Text "x"]⟩] :=
  ⟨by rfl,
    ((parse_template_present_fields [c3Def] [.Text "Formula"]
        [.TemplateArgument "1" [.Text "x"]] c3Def c3Parsed (by rfl) (by rfl)).1).trans
      (by rfl)⟩

theorem compile_eq_some (defs : List TemplateDefinition) (specs : List TemplateSpec)
    (h : compile defs = some specs) :
    defs.all check_template = true ∧ specs = defs.map compileTemplate := by
  by_cases hc : defs.all check_template
  · rw [compile, if_pos hc] at h
    cases h
    exact ⟨hc, rfl⟩
  · rw [compile, if_neg hc] at h
    cases h

theorem check_template_names_nonempty (t : TemplateDefinition)
    (h : check_template t = true) :
    t.names ≠ [] ∧ ∀ a ∈ t.attributes, a.names ≠ [] := by
  simp only [check_template, Bool.and_eq_true, List.all_eq_true, Bool.not_eq_true',
    ← List.isEmpty_iff] at h ⊢
  refine ⟨fun heq => by have := h.1.2; simp [heq] at this,
    fun a ha heq => by have := (h.2 a ha).2; simp [heq] at this⟩

theorem str_to_lower_lit_facts (l : List String) :
    (l ≠ [] → str_to_lower_lit l ≠ [] ∧
        ∃ d, (str_to_lower_lit l).head? = some d ∧ ∃ a, d = rlower (rtrim a)) ∧
      ∀ n ∈ str_to_lower_lit l, ∃ a, n = rlower (rtrim a) := by
  constructor
  · intro h
    obtain ⟨a, rest, rfl⟩ := List.exists_cons_of_ne_nil h
    exact ⟨by simp [str_to_lower_lit], rlower (rtrim a), rfl, a, rfl⟩
  · intro n hn
    obtain ⟨a, _, rfl⟩ := List.mem_map.mp hn
    exact ⟨a, rfl⟩

theorem parse_template_some_names (defs : List TemplateDefinition)
    (tname content : List Element) (p : ParsedTemplate)
    (h : parse_template defs tname content = some p) :
    ∃ t ∈ defs, p.names = str_to_lower_lit t.names := by
  rw [parse_template, parseLoop_eq_find] at h
  cases hf : defs.find? fun t =>
      rlower (rtrim (extract_plain_text tname)) ∈ str_to_lower_lit t.names with
  | none => rw [hf] at h; cases h
  | some t =>
    rw [hf, Option.some_bind, parseMatch] at h
    cases hfs : parseFields content t.attributes with
    | none => rw [hfs] at h; cases h
    | some fs =>
      rw [hfs] at h
      cases h
      exact ⟨t, List.mem_of_find?_eq_some hf, rfl⟩

/-- **C9**: every alias stored in a compiled `TemplateSpec`, in a compiled
`AttributeSpec`, and in the `names` list of every value produced by
`parse_template` is the result of trimming and lowercasing a source alias,
and every such list is non-empty, so `default_name` never panics (is some)
and returns a trimmed, lowercased alias. -/
theorem compiled_aliases_normalized (defs : List TemplateDefinition)
    (specs : List TemplateSpec) (h : compile defs = some specs) :
    (∀ s ∈ specs,
        s.names ≠ [] ∧ (∀ n ∈ s.names, ∃ a, n = rlower (rtrim a)) ∧
        (∃ d, s.default_name = some d ∧ ∃ a, d = rlower (rtrim a)) ∧
        ∀ attr ∈ s.attributes, attr.names ≠ [] ∧
          (∀ n ∈ attr.names, ∃ a, n = rlower (rtrim a)) ∧
          ∃ d, attr.default_name = some d ∧ ∃ a, d = rlower (rtrim a)) ∧
      ∀ tname content p, parse_template defs tname content = some p →
        p.names ≠ [] ∧ ∀ n ∈ p.names, ∃ a, n = rlower (rtrim a) := by
  obtain ⟨hall, rfl⟩ := compile_eq_some defs specs h
  rw [List.all_eq_true] at hall
  constructor
  · intro s hs
    obtain ⟨t, ht, rfl⟩ := List.mem_map.mp hs
    obtain ⟨hn, hattrs⟩ := check_template_names_nonempty t (hall t ht)
    refine ⟨((str_to_lower_lit_facts t.names).1 hn).1,
      (str_to_lower_lit_facts t.names).2,
      ((str_to_lower_lit_facts t.names).1 hn).2, ?_⟩
    intro attr hattr
    obtain ⟨a, ha, rfl⟩ := List.mem_map.mp hattr
    have hna := hattrs a ha
    exact ⟨((str_to_lower_lit_facts a.names).1 hna).1,
      (str_to_lower_lit_facts a.names).2,
      ((str_to_lower_lit_facts a.names).1 hna).2⟩
  · intro tname content p hp
    obtain ⟨t, ht, hnames⟩ := parse_template_some_names defs tname content p hp
    obtain ⟨hn, -⟩ := check_template_names_nonempty t (hall t ht)
    rw [hnames]
    exact ⟨((str_to_lower_lit_facts t.names).1 hn).1, (str_to_lower_lit_facts t.names).2⟩

/-- The single template definition of the C9 witness. -/
def c9Def : TemplateDefinition :=
  { identifier := "Anchor", names := [" Anchor "], description := "", format := .Inline,
    attributes := [{ identifier := "ref", names := ["1"], priority := .Required,
                     predicate := "is_plain_text", description := "" }] }

/-- Witness for C9: one concrete definition compiles, and its compiled alias
list is non-empty (so `default_name` succeeds). -/
theorem compiled_aliases_normalized_witness :
    compile [c9Def] = some [compileTemplate c9Def] ∧
      (compileTemplate c9Def).names ≠ [] ∧
      (compileTemplate c9Def).default_name = some "anchor" :=
  ⟨by rfl,
    ((compiled_aliases_normalized [c9Def] [compileTemplate c9Def] (by rfl)).1
      (compileTemplate c9Def) (List.mem_singleton.mpr rfl)).1,
    by rfl⟩

/-! ## Domain predicates (`src/spec.rs`) -/

/-- `spec::get_template_spec`: look up the registry entry for a template by
its extracted (un-normalized) name; a missing entry is a `PredError` with
cause `"<name>" has no specification!`.  Parameterised by the definition
list the derive macro was instantiated with (the generated `spec()` is
`defs.map compileTemplate`). -/
def get_template_spec (defs : List TemplateDefinition) (template_name : List Element) :
    Except PredError TemplateSpec :=
  let name := extract_plain_text template_name
  match spec_of (defs.map compileTemplate) name with
  | some spec => .ok spec
  | none => .error { tree := none, cause := "\"" ++ name ++ "\" has no specification!" }

/-- The `shallow` closure of `spec::is_theorem_paragraph`: one pass over a
node list, with `?`-propagation of the `get_template_spec` error. -/
def theoremShallow (defs : List TemplateDefinition) : List Element → PredResult
  | [] => .ok ()
  | e :: rest =>
    match e with
    | .Template name content =>
      match get_template_spec defs name with
      | .error err => .error err
      | .ok spec =>
        if (match parse_template defs name content with
            | some parsed => parsed.identifier == "ProofStep"
            | none => false) then
          theoremShallow defs rest
        else if spec.format ≠ .Inline then
          .error { tree := some (.Template name content),
                   cause := "\"" ++ extract_plain_text name ++ "\" is not an inline template!" }
        else theoremShallow defs rest
    | .Heading caption content =>
      .error { tree := some (.Heading caption content),
               cause := "This markup is not allowed in proofs!" }
    | .Table caption rows =>
      .error { tree := some (.Table caption rows),
               cause := "This markup is not allowed in proofs!" }
    | .TableRow cells =>
      .error { tree := some (.TableRow cells),
               cause := "This markup is not allowed in proofs!" }
    | .TableCell content =>
      .error { tree := some (.TableCell content),
               cause := "This markup is not allowed in proofs!" }
    | _ => theoremShallow defs rest

/-- `spec::is_theorem_paragraph`: the shallow rule applied recursively via
`always`. -/
def is_theorem_paragraph (defs : List TemplateDefinition) (elems : List Element) :
    PredResult :=
  always elems (theoremShallow defs)

/-- The per-element success condition of `is_theorem_paragraph` as the spec
states it: a `Template` node must parse to the `ProofStep` variant or have
a registry entry whose format is `Inline`; `Heading`, `Table`, `TableRow`
and `TableCell` are forbidden; all other node kinds are accepted. -/
def theoremElemAllowed (defs : List TemplateDefinition) : Element → Prop
  | .Template name content =>
    (∃ p, parse_template defs name content = some p ∧ p.identifier = "ProofStep") ∨
    (∃ s, spec_of (defs.map compileTemplate) (extract_plain_text name) = some s ∧
      s.format = .Inline)
  | .Heading _ _ => False
  | .Table _ _ => False
  | .TableRow _ => False
  | .TableCell _ => False
  | _ => True

theorem firstError_eq_ok_iff (p : List Element → PredResult) (ls : List (List Element)) :
    firstError p ls = .ok () ↔ ∀ l ∈ ls, p l = .ok () := by
  induction ls with
  | nil => simp [firstError]
  | cons l rest ih =>
    cases hl : p l with
    | error e => simp [firstError, hl]
    | ok v => cases v; simp [firstError, hl, ih]

theorem spec_of_map_compile (defs : List TemplateDefinition) (q : String) :
    spec_of (defs.map compileTemplate) q =
      (defs.find? fun t => rlower (rtrim q) ∈ str_to_lower_lit t.names).map
        compileTemplate := by
  induction defs with
  | nil => rfl
  | cons t rest ih =>
    by_cases h : rlower (rtrim q) ∈ str_to_lower_lit t.names
    · have h1 : rlower (rtrim q) ∈ (compileTemplate t).names := by
        simpa [compileTemplate] using h
      simp [spec_of, List.find?_cons, h, h1]
    · have h1 : rlower (rtrim q) ∉ (compileTemplate t).names := by
        simpa [compileTemplate] using h
      simp only [spec_of] at ih
      simp [spec_of, List.find?_cons, h, h1, ih]

theorem spec_of_compiled_of_parse (defs : List TemplateDefinition)
    (tname content : List Element) (p : ParsedTemplate)
    (h : parse_template defs tname content = some p) :
    ∃ s, spec_of (defs.map compileTemplate) (extract_plain_text tname) = some s := by
  rw [parse_template, parseLoop_eq_find] at h
  cases hf : defs.find? fun t =>
      rlower (rtrim (extract_plain_text tname)) ∈ str_to_lower_lit t.names with
  | none => rw [hf] at h; cases h
  | some t =>
    refine ⟨compileTemplate t, ?_⟩
    rw [spec_of_map_compile, hf]
    rfl

theorem theoremShallow_eq_ok_iff (defs : List TemplateDefinition) (l : List Element) :
    theoremShallow defs l = .ok () ↔ ∀ e ∈ l, theoremElemAllowed defs e := by
  induction l with
  | nil => simp [theoremShallow]
  | cons e rest ih =>
    match e with
    | .Template name content =>
      cases hs : spec_of (defs.map compileTemplate) (extract_plain_text name) with
      | none =>
        refine iff_of_false ?_ ?_
        · simp [theoremShallow, get_template_spec, hs]
        · intro h
          have := h (.Template name content) (List.mem_cons_self _ _)
          rcases this with ⟨p, hp, -⟩ | ⟨s, hsome, -⟩
          · obtain ⟨s, hs'⟩ := spec_of_compiled_of_parse defs name content p hp
            rw [hs] at hs'; cases hs'
          · rw [hs] at hsome; cases hsome
      | some s =>
        cases hp : parse_template defs name content with
        | some parsed =>
          by_cases hps : parsed.identifier = "ProofStep"
          · have hcond : (match parse_template defs name content with
                | some parsed => parsed.identifier == "ProofStep"
                | none => false) = true := by simp [hp, hps]
            simp only [theoremShallow, get_template_spec, hs, if_pos hcond, ih]
            constructor
            · intro h e' he'
              rcases List.mem_cons.mp he' with rfl | he'
              · exact Or.inl ⟨parsed, hp, hps⟩
              · exact h e' he'
            · intro h e' he'
              exact h e' (List.mem_cons_of_mem _ he')
          · have hcond : (match parse_template defs name content with
                | some parsed => parsed.identifier == "ProofStep"
                | none => false) = false := by simp [hp, hps]
            by_cases hfmt : s.format = .Inline
            · simp only [theoremShallow, get_template_spec, hs, hcond, Bool.false_eq_true,
                if_false, hfmt, ne_eq, not_true_eq_false, ih]
              constructor
              · intro h e' he'
                rcases List.mem_cons.mp he' with rfl | he'
                · exact Or.inr ⟨s, hs, hfmt⟩
                · exact h e' he'
              · intro h e' he'
                exact h e' (List.mem_cons_of_mem _ he')
            · refine iff_of_false ?_ ?_
              · simp [theoremShallow, get_template_spec, hs, hcond, hfmt]
              · intro h
                have := h (.Template name content) (List.mem_cons_self _ _)
                rcases this with ⟨p', hp', hps'⟩ | ⟨s', hsome', hfmt'⟩
                · rw [hp] at hp'; cases hp'; exact hps hps'
                · rw [hs] at hsome'; cases hsome'; exact hfmt hfmt'
        | none =>
          have hcond : (match parse_template defs name content with
              | some parsed => parsed.identifier == "ProofStep"
              | none => false) = false := by simp [hp]
          by_cases hfmt : s.format = .Inline
          · simp only [theoremShallow, get_template_spec, hs, hcond, Bool.false_eq_true,
              if_false, hfmt, ne_eq, not_true_eq_false, ih]
            constructor
            · intro h e' he'
              rcases List.mem_cons.mp he' with rfl | he'
              · exact Or.inr ⟨s, hs, hfmt⟩
              · exact h e' he'
            · intro h e' he'
              exact h e' (List.mem_cons_of_mem _ he')
          · refine iff_of_false ?_ ?_
            · simp [theoremShallow, get_template_spec, hs, hcond, hfmt]
            · intro h
              have := h (.Template name content) (List.mem_cons_self _ _)
              rcases this with ⟨p', hp', -⟩ | ⟨s', hsome', hfmt'⟩
              · rw [hp] at hp'; cases hp'
              · rw [hs] at hsome'; cases hsome'; exact hfmt hfmt'
    | .Heading caption content =>
      refine iff_of_false (by simp [theoremShallow]) ?_
      intro h
      exact h (.Heading caption content) (List.mem_cons_self _ _)
    | .Table caption rows =>
      refine iff_of_false (by simp [theoremShallow]) ?_
      intro h
      exact h (.Table caption rows) (List.mem_cons_self _ _)
    | .TableRow cells =>
      refine iff_of_false (by simp [theoremShallow]) ?_
      intro h
      exact h (.TableRow cells) (List.mem_cons_self _ _)
    | .TableCell content =>
      refine iff_of_false (by simp [theoremShallow]) ?_
      intro h
      exact h (.TableCell content) (List.mem_cons_self _ _)
    | .Text t =>
      simp only [theoremShallow, ih]
      constructor
      · intro h e' he'
        rcases List.mem_cons.mp he' with rfl | he'
        · trivial
        · exact h e' he'
      · intro h e' he'
        exact h e' (List.mem_cons_of_mem _ he')
    | .Paragraph c =>
      simp only [theoremShallow, ih]
      constructor
      · intro h e' he'
        rcases List.mem_cons.mp he' with rfl | he'
        · trivial
        · exact h e' he'
      · intro h e' he'
        exact h e' (List.mem_cons_of_mem _ he')
    | .Formatted m c =>
      simp only [theoremShallow, ih]
      constructor
      · intro h e' he'
        rcases List.mem_cons.mp he' with rfl | he'
        · trivial
        · exact h e' he'
      · intro h e' he'
        exact h e' (List.mem_cons_of_mem _ he')
    | .TemplateArgument n v =>
      simp only [theoremShallow, ih]
      constructor
      · intro h e' he'
        rcases List.mem_cons.mp he' with rfl | he'
        · trivial
        · exact h e' he'
      · intro h e' he'
        exact h e' (List.mem_cons_of_mem _ he')
    | .Gallery c =>
      simp only [theoremShallow, ih]
      constructor
      · intro h e' he'
        rcases List.mem_cons.mp he' with rfl | he'
        · trivial
        · exact h e' he'
      · intro h e' he'
        exact h e' (List.mem_cons_of_mem _ he')
    | .InternalReference t c =>
      simp only [theoremShallow, ih]
      constructor
      · intro h e' he'
        rcases List.mem_cons.mp he' with rfl | he'
        · trivial
        · exact h e' he'
      · intro h e' he'
        exact h e' (List.mem_cons_of_mem _ he')
    | .List c =>
      simp only [theoremShallow, ih]
      constructor
      · intro h e' he'
        rcases List.mem_cons.mp he' with rfl | he'
        · trivial
        · exact h e' he'
      · intro h e' he'
        exact h e' (List.mem_cons_of_mem _ he')
    | .ListItem k d c =>
      simp only [theoremShallow, ih]
      constructor
      · intro h e' he'
        rcases List.mem_cons.mp he' with rfl | he'
        · trivial
        · exact h e' he'
      · intro h e' he'
        exact h e' (List.mem_cons_of_mem _ he')
    | .Error m =>
      simp only [theoremShallow, ih]
      constructor
      · intro h e' he'
        rcases List.mem_cons.mp he' with rfl | he'
        · trivial
        · exact h e' he'
      · intro h e' he'
        exact h e' (List.mem_cons_of_mem _ he')

/-- **C6**: `is_theorem_paragraph` succeeds exactly when, recursively at
every depth, every `Template` node either parses to the `ProofStep` variant
or has a registry entry whose format is `Inline`, and no node at any depth
is a `Heading`, `Table`, `TableRow` or `TableCell` (all other node kinds
are accepted); a `Template` whose extracted name has no registry entry makes
the predicate return an error value with cause
`"<name>" has no specification!`. -/
theorem is_theorem_paragraph_characterization (defs : List TemplateDefinition)
    (elems : List Element) (name content : List Element) :
    (is_theorem_paragraph defs elems = .ok () ↔
        ∀ l ∈ nodeLists elems, ∀ e ∈ l, theoremElemAllowed defs e) ∧
      (spec_of (defs.map compileTemplate) (extract_plain_text name) = none →
        is_theorem_paragraph defs [.Template name content] =
          .error ⟨none, "\"" ++ extract_plain_text name ++ "\" has no specification!"⟩) := by
  constructor
  · rw [is_theorem_paragraph, always_eq_fe, firstError_eq_ok_iff]
    constructor
    · intro h l hl
      exact (theoremShallow_eq_ok_iff defs l).mp (h l hl)
    · intro h l hl
      exact (theoremShallow_eq_ok_iff defs l).mpr (h l hl)
  · intro hs
    rw [is_theorem_paragraph, always]
    have : theoremShallow defs [.Template name content] =
        .error ⟨none, "\"" ++ extract_plain_text name ++ "\" has no specification!"⟩ := by
      simp [theoremShallow, get_template_spec, hs]
    rw [this]
    rfl

/-- Witness for C6: with an empty registry, a template named `foo` fails
with the `has no specification!` cause. -/
theorem is_theorem_paragraph_characterization_witness :
    is_theorem_paragraph [] [.Template [.Text "foo"] []] =
      .error ⟨none, "\"foo\" has no specification!"⟩ :=
  (is_theorem_paragraph_characterization [] [] [.Text "foo"] []).2 (by rfl)

/-! ## Tree transformations (`src/transformations.rs`) -/

/-- Outcome of the external `texvccheck` formula checker
(`util::TexResult`). -/
inductive TexResult where
  | Ok (content : String)
  | UnknownFunction (func : String)
  | SyntaxError
  | LexingError
  | UnknownError

/-- `transformations::check_formula`: a formula must consist of exactly one
`Text` node (checked first, as `content.len() != 1` in the source), whose
text is handed to the checker; every non-`Ok` outcome becomes an `Error`
element. -/
def check_formula (content : List Element) (checker : String → TexResult) : Element :=
  match content with
  | [first] =>
    match first with
    | .Text text =>
      match checker text with
      | .Ok c => .Text c
      | .UnknownFunction func => .Error ("unknown latex function `" ++ func ++ "`!")
      | .SyntaxError => .Error "latex syntax error!"
      | .LexingError => .Error "latex lexer error!"
      | .UnknownError => .Error "unknown latex error!"
    | _ => .Error "A formula must only have text as content!"
  | _ => .Error "A formula must have exactly one content element!"

mutual
/-- `transformations::normalize_math_formulas`: on a Math-formatted node,
`check_formula` either yields a `Text` (which replaces the node's content;
the subsequent `recurse_inplace` maps the transformation over that single
childless `Text`, leaving it unchanged) or an `Error` element that replaces
the whole node (returned without recursion); every other node keeps its
structure and is rewritten recursively (`recurse_inplace`). -/
def normalize_math_formulas (checker : String → TexResult) : Element → Element
  | .Formatted markup content =>
    if markup = .Math then
      match check_formula content checker with
      | .Text t => .Formatted markup [.Text t]
      | e => e
    else .Formatted markup (normalizeList checker content)
  | .Paragraph content => .Paragraph (normalizeList checker content)
  | .Template name content =>
    .Template (normalizeList checker name) (normalizeList checker content)
  | .TemplateArgument name value => .TemplateArgument name (normalizeList checker value)
  | .Heading caption content =>
    .Heading (normalizeList checker caption) (normalizeList checker content)
  | .Table caption rows => .Table (normalizeList checker caption) (normalizeList checker rows)
  | .TableRow cells => .TableRow (normalizeList checker cells)
  | .TableCell content => .TableCell (normalizeList checker content)
  | .Gallery content => .Gallery (normalizeList checker content)
  | .InternalReference target caption =>
    .InternalReference (normalizeList checker target) (normalizeList checker caption)
  | .List content => .List (normalizeList checker content)
  | .ListItem kind depth content => .ListItem kind depth (normalizeList checker content)
  | .Text t => .Text t
  | .Error m => .Error m
termination_by structural x => x

/-- `recurse_inplace` of `normalize_math_formulas` over a child list. -/
def normalizeList (checker : String → TexResult) : List Element → List Element
  | [] => []
  | e :: rest => normalize_math_formulas checker e :: normalizeList checker rest
termination_by structural x => x
end

/-- **C8**: a Math-formatted node whose content is not exactly one `Text`
node becomes an `Error` node without the checker being consulted (the
result is the same for every checker): the count message when the length
differs from one, the text-only message when the single element is not a
`Text`. -/
theorem normalize_math_malformed (checker : String → TexResult)
    (content : List Element) :
    (content.length ≠ 1 →
        normalize_math_formulas checker (.Formatted .Math content) =
          .Error "A formula must have exactly one content element!") ∧
      ∀ e, content = [e] → (∀ t, e ≠ .Text t) →
        normalize_math_formulas checker (.Formatted .Math content) =
          .Error "A formula must only have text as content!" := by
  constructor
  · intro hlen
    match content, hlen with
    | [], _ => rfl
    | a :: b :: rest, _ => rfl
    | [a], hlen => exact absurd rfl hlen
  · rintro e rfl hnt
    match e, hnt with
    | .Text t, hnt => exact absurd rfl (hnt t)
    | .Paragraph c, _ => rfl
    | .Formatted m c, _ => rfl
    | .Template n c, _ => rfl
    | .TemplateArgument n v, _ => rfl
    | .Heading cap c, _ => rfl
    | .Table cap r, _ => rfl
    | .TableRow c, _ => rfl
    | .TableCell c, _ => rfl
    | .Gallery c, _ => rfl
    | .InternalReference t' c, _ => rfl
    | .List c, _ => rfl
    | .ListItem k d c, _ => rfl
    | .Error m, _ => rfl

/-- Witness for C8: two `Text` children produce the count error message. -/
theorem normalize_math_malformed_witness :
    normalize_math_formulas (fun _ => TexResult.UnknownError)
        (.Formatted .Math [.Text "a", .Text "b"]) =
      .Error "A formula must have exactly one content element!" :=
  (normalize_math_malformed (fun _ => TexResult.UnknownError)
    [.Text "a", .Text "b"]).1 (by decide)

/-- The `type` argument lookup of `convert_template_list_rec`: the
lowercased plain text of the `type` argument, or `""` when absent. -/
def template_list_type (content : List Element) : String :=
  match find_arg content ["type"] with
  | some (.TemplateArgument _ value) => rlower (extract_plain_text value)
  | _ => ""

/-- The item kind of `convert_template_list_rec`; the Rust
`match list_type.trim() { "ol" | "ordered" => Ordered, "ul" | _ => Unordered }`
written as a conditional. -/
def template_item_kind (content : List Element) : ListItemKind :=
  if rtrim (template_list_type content) = "ol" ∨
      rtrim (template_list_type content) = "ordered"
  then .Ordered else .Unordered

/-- Result of the argument loop of `convert_template_list_rec`: either the
accumulated list items or the early replacement by an unwrapped sublist. -/
inductive ListLoopResult where
  | items (content : List Element)
  | replaced (element : Element)

mutual
/-- `transformations::convert_template_list_rec`: a `Template` whose
normalized name is `list` or `liste` is rewritten by the argument loop
(`convertLoop`); every other node keeps its structure and has its children
rewritten (`recurse_inplace`).  When the loop completes, the new `List`
node's `recurse_inplace` is fused into the loop (the items it maps the
transformation over are built there). -/
def convert_template_list_rec : Element → Element
  | .Template name content =>
    if rlower (rtrim (extract_plain_text name)) = "list" ∨
        rlower (rtrim (extract_plain_text name)) = "liste" then
      match convertLoop (template_item_kind content) content with
      | .replaced e => e
      | .items l => .List l
    else .Template (convertList name) (convertList content)
  | .Paragraph content => .Paragraph (convertList content)
  | .Formatted markup content => .Formatted markup (convertList content)
  | .TemplateArgument name value => .TemplateArgument name (convertList value)
  | .Heading caption content => .Heading (convertList caption) (convertList content)
  | .Table caption rows => .Table (convertList caption) (convertList rows)
  | .TableRow cells => .TableRow (convertList cells)
  | .TableCell content => .TableCell (convertList content)
  | .Gallery content => .Gallery (convertList content)
  | .InternalReference target caption =>
    .InternalReference (convertList target) (convertList caption)
  | .List content => .List (convertList content)
  | .ListItem kind depth content => .ListItem kind depth (convertList content)
  | .Text t => .Text t
  | .Error m => .Error m
termination_by x => sizeOf x

/-- The transformation mapped over a child list. -/
def convertList : List Element → List Element
  | [] => []
  | e :: rest => convert_template_list_rec e :: convertList rest
termination_by x => sizeOf x

/-- The `drain` loop of `convert_template_list_rec`: an argument named with
prefix `item` becomes a depth-1 `ListItem` (its content rewritten by the
`List` node's later `recurse_inplace`, fused here); the first argument
named with prefix `list` whose value is non-empty replaces the whole
template by its first value element with children rewritten
(`recurse_inplace`), discarding all accumulated items; a `list` argument
with an empty value is skipped; non-argument children are dropped. -/
def convertLoop (kind : ListItemKind) : List Element → ListLoopResult
  | [] => .items []
  | .TemplateArgument aname avalue :: rest =>
    if rstarts aname "item" then
      match convertLoop kind rest with
      | .items l => .items (.ListItem kind 1 (convertList avalue) :: l)
      | .replaced e => .replaced e
    else if rstarts aname "list" then
      match avalue with
      | [] => convertLoop kind rest
      | sublist :: _ => .replaced (convertChildren sublist)
    else convertLoop kind rest
  | .Text _ :: rest => convertLoop kind rest
  | .Paragraph _ :: rest => convertLoop kind rest
  | .Formatted _ _ :: rest => convertLoop kind rest
  | .Template _ _ :: rest => convertLoop kind rest
  | .Heading _ _ :: rest => convertLoop kind rest
  | .Table _ _ :: rest => convertLoop kind rest
  | .TableRow _ :: rest => convertLoop kind rest
  | .TableCell _ :: rest => convertLoop kind rest
  | .Gallery _ :: rest => convertLoop kind rest
  | .InternalReference _ _ :: rest => convertLoop kind rest
  | .List _ :: rest => convertLoop kind rest
  | .ListItem _ _ _ :: rest => convertLoop kind rest
  | .Error _ :: rest => convertLoop kind rest
termination_by x => sizeOf x

/-- `recurse_inplace` applied to a single node: its children are rewritten,
the node's own rule is not re-applied. -/
def convertChildren : Element → Element
  | .Template name content => .Template (convertList name) (convertList content)
  | .Paragraph content => .Paragraph (convertList content)
  | .Formatted markup content => .Formatted markup (convertList content)
  | .TemplateArgument name value => .TemplateArgument name (convertList value)
  | .Heading caption content => .Heading (convertList caption) (convertList content)
  | .Table caption rows => .Table (convertList caption) (convertList rows)
  | .TableRow cells => .TableRow (convertList cells)
  | .TableCell content => .TableCell (convertList content)
  | .Gallery content => .Gallery (convertList content)
  | .InternalReference target caption =>
    .InternalReference (convertList target) (convertList caption)
  | .List content => .List (convertList content)
  | .ListItem kind depth content => .ListItem kind depth (convertList content)
  | .Text t => .Text t
  | .Error m => .Error m
termination_by x => sizeOf x
end

/-- `transformations::convert_template_list`. -/
def convert_template_list (root : Element) : Element := convert_template_list_rec root

theorem convertLoop_cons_item (kind : ListItemKind) (an : String) (av rest : List Element)
    (hitem : rstarts an "item" = true) :
    convertLoop kind (.TemplateArgument an av :: rest) =
      match convertLoop kind rest with
      | .items l => .items (.ListItem kind 1 (convertList av) :: l)
      | .replaced e => .replaced e := by
  cases av with
  | nil => simp [convertLoop, hitem]
  | cons h0 vt => simp [convertLoop, hitem]

theorem convertLoop_cons_list_skip (kind : ListItemKind) (an : String) (rest : List Element)
    (hitem : rstarts an "item" = false) (hlist : rstarts an "list" = true) :
    convertLoop kind (.TemplateArgument an [] :: rest) = convertLoop kind rest := by
  simp [convertLoop, hitem, hlist]

theorem convertLoop_cons_list_take (kind : ListItemKind) (an : String)
    (h0 : Element) (vt rest : List Element)
    (hitem : rstarts an "item" = false) (hlist : rstarts an "list" = true) :
    convertLoop kind (.TemplateArgument an (h0 :: vt) :: rest) =
      .replaced (convertChildren h0) := by
  simp [convertLoop, hitem, hlist]

theorem convertLoop_cons_other_arg (kind : ListItemKind) (an : String)
    (av rest : List Element)
    (hitem : rstarts an "item" = false) (hlist : rstarts an "list" = false) :
    convertLoop kind (.TemplateArgument an av :: rest) = convertLoop kind rest := by
  cases av with
  | nil => simp [convertLoop, hitem, hlist]
  | cons h0 vt => simp [convertLoop, hitem, hlist]

theorem convertLoop_cons_skip (kind : ListItemKind) (e : Element) (rest : List Element)
    (h : ∀ an av, e ≠ .TemplateArgument an av) :
    convertLoop kind (e :: rest) = convertLoop kind rest := by
  match e, h with
  | .TemplateArgument an av, h => exact absurd rfl (h an av)
  | .Text t, _ => simp [convertLoop]
  | .Paragraph c, _ => simp [convertLoop]
  | .Formatted m c, _ => simp [convertLoop]
  | .Template n c, _ => simp [convertLoop]
  | .Heading cap c, _ => simp [convertLoop]
  | .Table cap r, _ => simp [convertLoop]
  | .TableRow c, _ => simp [convertLoop]
  | .TableCell c, _ => simp [convertLoop]
  | .Gallery c, _ => simp [convertLoop]
  | .InternalReference t c, _ => simp [convertLoop]
  | .List c, _ => simp [convertLoop]
  | .ListItem k d c, _ => simp [convertLoop]
  | .Error m, _ => simp [convertLoop]

/-- Counterexample to C7 as stated: a `list`-named template carrying a
`list1` argument with a non-empty value is replaced by that argument's
first value element (a `Text` node, not a `List` of its `item` arguments). -/
theorem convert_template_list_unwraps_sublist :
    convert_template_list
        (.Template [.Text "list"] [.TemplateArgument "list1" [.Text "x"]]) =
      .Text "x" ∧
      rlower (rtrim (extract_plain_text [.Text "list"])) = "list" := by
  refine ⟨?_, by rfl⟩
  have hname : rlower (rtrim (extract_plain_text [Element.Text "list"])) = "list" := by rfl
  simp only [convert_template_list, convert_template_list_rec]
  rw [if_pos (Or.inl hname),
    convertLoop_cons_list_take _ "list1" (.Text "x") [] [] (by rfl) (by rfl)]
  simp [convertChildren]

theorem convertLoop_no_sublist (kind : ListItemKind) (content : List Element)
    (hnl : ∀ an av, Element.TemplateArgument an av ∈ content →
      rstarts an "list" = true → av = []) :
    convertLoop kind content = .items (content.filterMap fun e =>
      match e with
      | .TemplateArgument an av =>
        if rstarts an "item" then some (.ListItem kind 1 (convertList av)) else none
      | _ => none) := by
  induction content with
  | nil => simp [convertLoop]
  | cons e rest ih =>
    have hrest : ∀ an av, Element.TemplateArgument an av ∈ rest →
        rstarts an "list" = true → av = [] :=
      fun an av h => hnl an av (List.mem_cons_of_mem _ h)
    have ihr := ih hrest
    match e with
    | .TemplateArgument an av =>
      cases hitem : rstarts an "item" with
      | true =>
        rw [convertLoop_cons_item kind an av rest hitem, ihr, List.filterMap_cons]
        simp [hitem]
      | false =>
        cases hlist : rstarts an "list" with
        | true =>
          have hav : av = [] := hnl an av (List.mem_cons_self _ _) hlist
          subst hav
          rw [convertLoop_cons_list_skip kind an rest hitem hlist, ihr,
            List.filterMap_cons]
          simp [hitem]
        | false =>
          rw [convertLoop_cons_other_arg kind an av rest hitem hlist, ihr,
            List.filterMap_cons]
          simp [hitem]
    | .Text t =>
      rw [convertLoop_cons_skip kind _ rest (by intro an av h; cases h), ihr,
        List.filterMap_cons]
    | .Paragraph c =>
      rw [convertLoop_cons_skip kind _ rest (by intro an av h; cases h), ihr,
        List.filterMap_cons]
    | .Formatted m c =>
      rw [convertLoop_cons_skip kind _ rest (by intro an av h; cases h), ihr,
        List.filterMap_cons]
    | .Template n c =>
      rw [convertLoop_cons_skip kind _ rest (by intro an av h; cases h), ihr,
        List.filterMap_cons]
    | .Heading cap c =>
      rw [convertLoop_cons_skip kind _ rest (by intro an av h; cases h), ihr,
        List.filterMap_cons]
    | .Table cap r =>
      rw [convertLoop_cons_skip kind _ rest (by intro an av h; cases h), ihr,
        List.filterMap_cons]
    | .TableRow c =>
      rw [convertLoop_cons_skip kind _ rest (by intro an av h; cases h), ihr,
        List.filterMap_cons]
    | .TableCell c =>
      rw [convertLoop_cons_skip kind _ rest (by intro an av h; cases h), ihr,
        List.filterMap_cons]
    | .Gallery c =>
      rw [convertLoop_cons_skip kind _ rest (by intro an av h; cases h), ihr,
        List.filterMap_cons]
    | .InternalReference t c =>
      rw [convertLoop_cons_skip kind _ rest (by intro an av h; cases h), ihr,
        List.filterMap_cons]
    | .List c =>
      rw [convertLoop_cons_skip kind _ rest (by intro an av h; cases h), ihr,
        List.filterMap_cons]
    | .ListItem k d c =>
      rw [convertLoop_cons_skip kind _ rest (by intro an av h; cases h), ihr,
        List.filterMap_cons]
    | .Error m =>
      rw [convertLoop_cons_skip kind _ rest (by intro an av h; cases h), ihr,
        List.filterMap_cons]

theorem template_item_kind_eq (content : List Element) :
    template_item_kind content = .Ordered ↔
      ∃ an av, find_arg content ["type"] = some (.TemplateArgument an av) ∧
        (rtrim (rlower (extract_plain_text av)) = "ol" ∨
          rtrim (rlower (extract_plain_text av)) = "ordered") := by
  cases hfa : find_arg content ["type"] with
  | none =>
    have hlt : template_list_type content = "" := by
      simp only [template_list_type, hfa]
    constructor
    · intro h
      simp only [template_item_kind, hlt] at h
      exact absurd h (by decide)
    · rintro ⟨an, av, hsome, -⟩
      cases hsome
  | some e =>
    have hfa' := hfa
    simp only [find_arg] at hfa'
    have hpe := List.find?_some hfa'
    match e, hfa, hpe with
    | .TemplateArgument an av, hfa, hpe =>
      have hlt : template_list_type content = rlower (extract_plain_text av) := by
        simp only [template_list_type, hfa]
      constructor
      · intro h
        simp only [template_item_kind, hlt] at h
        by_cases hc : rtrim (rlower (extract_plain_text av)) = "ol" ∨
            rtrim (rlower (extract_plain_text av)) = "ordered"
        · exact ⟨an, av, rfl, hc⟩
        · rw [if_neg hc] at h
          cases h
      · rintro ⟨an', av', hsome, hc⟩
        obtain ⟨rfl, rfl⟩ := Element.TemplateArgument.inj (Option.some.inj hsome)
        simp only [template_item_kind, hlt]
        rw [if_pos hc]

/-- **C7** (amended): a `Template` whose normalized name is `list` or
`liste`, none of whose `list`-prefixed arguments has a non-empty value (a
non-empty one triggers the early replacement of C10 instead), is replaced
by a `List` whose items are built in argument order from the arguments
whose name starts with `item`, each a depth-1 `ListItem` holding the
argument's (recursively rewritten) value; with no `item` arguments the
`List` is empty; and the kind is `Ordered` exactly when the `type`
argument's extracted text is, after lowercasing and trimming, `ol` or
`ordered` (`Unordered` otherwise, in particular when `type` is absent). -/
theorem convert_template_list_to_list (name content : List Element)
    (hname : rlower (rtrim (extract_plain_text name)) = "list" ∨
      rlower (rtrim (extract_plain_text name)) = "liste")
    (hnl : ∀ an av, Element.TemplateArgument an av ∈ content →
      rstarts an "list" = true → av = []) :
    convert_template_list_rec (.Template name content) =
      .List (content.filterMap fun e =>
        match e with
        | .TemplateArgument an av =>
          if rstarts an "item" then
            some (.ListItem (template_item_kind content) 1 (convertList av))
          else none
        | _ => none) ∧
      (template_item_kind content = .Ordered ↔
        ∃ an av, find_arg content ["type"] = some (.TemplateArgument an av) ∧
          (rtrim (rlower (extract_plain_text av)) = "ol" ∨
            rtrim (rlower (extract_plain_text av)) = "ordered")) := by
  constructor
  · rw [convert_template_list_rec, if_pos hname,
      convertLoop_no_sublist (template_item_kind content) content hnl]
  · exact template_item_kind_eq content

/-- Witness for C7 (the spec's own example): `{{Liste|item1=a|item2=b}}`
becomes a `List` with two unordered items. -/
theorem convert_template_list_to_list_witness :
    convert_template_list_rec (.Template [.Text "Liste"]
        [.TemplateArgument "item1" [.Text "a"], .TemplateArgument "item2" [.Text "b"]]) =
      .List [.ListItem .Unordered 1 [.Text "a"], .ListItem .Unordered 1 [.Text "b"]] :=
  ((convert_template_list_to_list [.Text "Liste"]
      [.TemplateArgument "item1" [.Text "a"], .TemplateArgument "item2" [.Text "b"]]
      (Or.inr (by rfl))
      (by
        intro an av h hs
        rcases List.mem_cons.mp h with heq | h
        · cases heq; exact absurd hs (by decide)
        · rcases List.mem_cons.mp h with heq | h
          · cases heq; exact absurd hs (by decide)
          · cases h)).1).trans (by
    simp [List.filterMap_cons, show rstarts "item1" "item" = true from rfl,
      show rstarts "item2" "item" = true from rfl,
      show template_item_kind
          [Element.TemplateArgument "item1" [Element.Text "a"],
           Element.TemplateArgument "item2" [Element.Text "b"]] =
        ListItemKind.Unordered from rfl,
      convertList, convert_template_list_rec])

theorem rstarts_list_not_item (an : String) (h : rstarts an "list" = true) :
    rstarts an "item" = false := by
  rw [rstarts] at h ⊢
  match han : an.data with
  | [] => rw [han] at h; cases h
  | c :: cs =>
    rw [han] at h
    simp only [List.isPrefixOf, Bool.and_eq_true, beq_iff_eq] at h
    obtain ⟨rfl, -⟩ := h
    simp [List.isPrefixOf]

theorem convertLoop_first_sublist (kind : ListItemKind) (pre post : List Element)
    (an : String) (h0 : Element) (vt : List Element)
    (han : rstarts an "list" = true)
    (hpre : ∀ an' av', Element.TemplateArgument an' av' ∈ pre →
      rstarts an' "list" = true → av' = []) :
    convertLoop kind (pre ++ .TemplateArgument an (h0 :: vt) :: post) =
      .replaced (convertChildren h0) := by
  induction pre with
  | nil =>
    rw [List.nil_append]
    exact convertLoop_cons_list_take kind an h0 vt post
      (rstarts_list_not_item an han) han
  | cons e rest ih =>
    have hrest : ∀ an' av', Element.TemplateArgument an' av' ∈ rest →
        rstarts an' "list" = true → av' = [] :=
      fun an' av' h => hpre an' av' (List.mem_cons_of_mem _ h)
    have ihr := ih hrest
    rw [List.cons_append]
    match e with
    | .TemplateArgument an' av' =>
      cases hitem : rstarts an' "item" with
      | true => rw [convertLoop_cons_item kind an' av' _ hitem, ihr]
      | false =>
        cases hlist : rstarts an' "list" with
        | true =>
          have hav : av' = [] := hpre an' av' (List.mem_cons_self _ _) hlist
          subst hav
          rw [convertLoop_cons_list_skip kind an' _ hitem hlist, ihr]
        | false => rw [convertLoop_cons_other_arg kind an' av' _ hitem hlist, ihr]
    | .Text t =>
      rw [convertLoop_cons_skip kind _ _ (by intro an'' av'' h; cases h), ihr]
    | .Paragraph c =>
      rw [convertLoop_cons_skip kind _ _ (by intro an'' av'' h; cases h), ihr]
    | .Formatted m c =>
      rw [convertLoop_cons_skip kind _ _ (by intro an'' av'' h; cases h), ihr]
    | .Template n c =>
      rw [convertLoop_cons_skip kind _ _ (by intro an'' av'' h; cases h), ihr]
    | .Heading cap c =>
      rw [convertLoop_cons_skip kind _ _ (by intro an'' av'' h; cases h), ihr]
    | .Table cap r =>
      rw [convertLoop_cons_skip kind _ _ (by intro an'' av'' h; cases h), ihr]
    | .TableRow c =>
      rw [convertLoop_cons_skip kind _ _ (by intro an'' av'' h; cases h), ihr]
    | .TableCell c =>
      rw [convertLoop_cons_skip kind _ _ (by intro an'' av'' h; cases h), ihr]
    | .Gallery c =>
      rw [convertLoop_cons_skip kind _ _ (by intro an'' av'' h; cases h), ihr]
    | .InternalReference t c =>
      rw [convertLoop_cons_skip kind _ _ (by intro an'' av'' h; cases h), ihr]
    | .List c =>
      rw [convertLoop_cons_skip kind _ _ (by intro an'' av'' h; cases h), ihr]
    | .ListItem k d c =>
      rw [convertLoop_cons_skip kind _ _ (by intro an'' av'' h; cases h), ihr]
    | .Error m =>
      rw [convertLoop_cons_skip kind _ _ (by intro an'' av'' h; cases h), ihr]

/-- **C10**: on a `list`/`liste` template, the first argument whose name
starts with `list` and whose value is non-empty replaces the entire
template by that argument's first value element with its children
recursively rewritten, silently discarding every `item` argument collected
before it and every argument after it; a `list`-prefixed argument with an
empty value is skipped and processing continues. -/
theorem convert_template_list_first_sublist (name : List Element)
    (pre post : List Element) (an : String) (h0 : Element) (vt : List Element)
    (hname : rlower (rtrim (extract_plain_text name)) = "list" ∨
      rlower (rtrim (extract_plain_text name)) = "liste")
    (han : rstarts an "list" = true)
    (hpre : ∀ an' av', Element.TemplateArgument an' av' ∈ pre →
      rstarts an' "list" = true → av' = []) :
    convert_template_list_rec
        (.Template name (pre ++ .TemplateArgument an (h0 :: vt) :: post)) =
      convertChildren h0 := by
  rw [convert_template_list_rec, if_pos hname,
    convertLoop_first_sublist _ pre post an h0 vt han hpre]

/-- Witness for C10: an `item1` argument before, and an `item2` argument
after, a non-empty `list1` argument are both discarded; the template
becomes the sublist's first element. -/
theorem convert_template_list_first_sublist_witness :
    convert_template_list_rec (.Template [.Text "list"]
        [.TemplateArgument "item1" [.Text "a"],
         .TemplateArgument "list1" [.List [.ListItem .Unordered 1 [.Text "x"]]],
         .TemplateArgument "item2" [.Text "b"]]) =
      .List [.ListItem .Unordered 1 [.Text "x"]] :=
  (convert_template_list_first_sublist [.Text "list"]
      [.TemplateArgument "item1" [.Text "a"]]
      [.TemplateArgument "item2" [.Text "b"]]
      "list1" (.List [.ListItem .Unordered 1 [.Text "x"]]) []
      (Or.inl (by rfl)) (by decide)
      (by
        intro an' av' h hs
        rcases List.mem_cons.mp h with heq | h
        · cases heq; exact absurd hs (by decide)
        · cases h)).trans (by
    simp [convertChildren, convertList, convert_template_list_rec])

end MwUtils
